import Mathlib

/-!
Verification of the R version module (`src/modules/r.rs`, `src/configs/r.rs`).

The module's core is `parse_version`, which searches raw tool output with the
regex `R_VERSION_PATTERN = " (?P<rversion>\d+\.\d+\.\d+) "`, prepends `"v"` to
the captured triplet and trims the result.  For this pattern the regex engine's
greedy `\d+` is equivalent to taking a maximal digit run (a shorter run would be
followed by a digit, which matches neither `\.` nor the literal space, whatever
the digit class), so the matcher below is a faithful deterministic embedding;
the leftmost-match rule of `Regex::captures` becomes a left-to-right scan.

Rust's `regex` crate compiles `\d` with Unicode support by default: it matches
the full `Nd` (decimal number) general category — e.g. the Arabic-Indic digits
`٣٦` — not only ASCII `0-9`.  `isDigitChar` therefore tests membership in the
`\p{Nd}` codepoint ranges (`ndRanges`, Unicode 14.0.0, 660 codepoints).  Every
general theorem below depends only on facts about `Nd` that are stable across
Unicode revisions — it contains the ASCII digits and contains no whitespace
character, no `.`, no `v` — and the concrete inputs of the witnesses and
counterexamples use only ASCII and Arabic-Indic digits, in `Nd` since Unicode
1.0, so nothing rests on exactly which Unicode revision the crate bundles.

Rust's `str::trim` is modelled by stripping `Char.isWhitespace` characters at
both ends.  Lean's `Char.isWhitespace` (space, tab, CR, LF) is narrower than
Rust's Unicode `White_Space`, but the trimmed string is always `v` + digits +
dots, and `Nd` is disjoint from both whitespace notions, so the trim is a no-op
under either and the difference is unobservable.  `Regex::new` on this constant
pattern always succeeds, so the `.ok()?` step never yields `None` and is not
modelled.
-/

/-- The codepoint ranges of the Unicode general category `Nd` (decimal number),
Unicode 14.0.0: what Rust's Unicode-aware `\d` matches. -/
def ndRanges : List (Nat × Nat) :=
  [(0x30, 0x39), (0x660, 0x669), (0x6F0, 0x6F9), (0x7C0, 0x7C9), (0x966, 0x96F),
   (0x9E6, 0x9EF), (0xA66, 0xA6F), (0xAE6, 0xAEF), (0xB66, 0xB6F), (0xBE6, 0xBEF),
   (0xC66, 0xC6F), (0xCE6, 0xCEF), (0xD66, 0xD6F), (0xDE6, 0xDEF), (0xE50, 0xE59),
   (0xED0, 0xED9), (0xF20, 0xF29), (0x1040, 0x1049), (0x1090, 0x1099), (0x17E0, 0x17E9),
   (0x1810, 0x1819), (0x1946, 0x194F), (0x19D0, 0x19D9), (0x1A80, 0x1A89), (0x1A90, 0x1A99),
   (0x1B50, 0x1B59), (0x1BB0, 0x1BB9), (0x1C40, 0x1C49), (0x1C50, 0x1C59), (0xA620, 0xA629),
   (0xA8D0, 0xA8D9), (0xA900, 0xA909), (0xA9D0, 0xA9D9), (0xA9F0, 0xA9F9), (0xAA50, 0xAA59),
   (0xABF0, 0xABF9), (0xFF10, 0xFF19), (0x104A0, 0x104A9), (0x10D30, 0x10D39), (0x11066, 0x1106F),
   (0x110F0, 0x110F9), (0x11136, 0x1113F), (0x111D0, 0x111D9), (0x112F0, 0x112F9), (0x11450, 0x11459),
   (0x114D0, 0x114D9), (0x11650, 0x11659), (0x116C0, 0x116C9), (0x11730, 0x11739), (0x118E0, 0x118E9),
   (0x11950, 0x11959), (0x11C50, 0x11C59), (0x11D50, 0x11D59), (0x11DA0, 0x11DA9), (0x16A60, 0x16A69),
   (0x16AC0, 0x16AC9), (0x16B50, 0x16B59), (0x1D7CE, 0x1D7FF), (0x1E140, 0x1E149), (0x1E2F0, 0x1E2F9),
   (0x1E950, 0x1E959), (0x1FBF0, 0x1FBF9)]

/-- `\d` of the version pattern: a Unicode decimal digit (`\p{Nd}`). -/
def isDigitChar (c : Char) : Bool :=
  ndRanges.any fun r => decide (r.1 ≤ c.toNat ∧ c.toNat ≤ r.2)

/-- Rust `str::trim`: remove whitespace from both ends. -/
def rustTrim (l : List Char) : List Char :=
  ((l.dropWhile Char.isWhitespace).reverse.dropWhile Char.isWhitespace).reverse

/-- Match `\d+\.\d+\.\d+ ` at the head of `l` (the part of the pattern after the
leading space), returning the captured `rversion` group.  Greedy `\d+` is
realised as a maximal digit run, as justified in the file header. -/
def matchTripletAt (l : List Char) : Option (List Char) :=
  let a := l.takeWhile isDigitChar
  if a = [] then none else
  match l.dropWhile isDigitChar with
  | '.' :: r2 =>
    let b := r2.takeWhile isDigitChar
    if b = [] then none else
    match r2.dropWhile isDigitChar with
    | '.' :: r4 =>
      let c := r4.takeWhile isDigitChar
      if c = [] then none else
      match r4.dropWhile isDigitChar with
      | ' ' :: _ => some (a ++ '.' :: b ++ '.' :: c)
      | _ => none
    | _ => none
  | _ => none

/-- Leftmost match of `R_VERSION_PATTERN = " (?P<rversion>\d+\.\d+\.\d+) "`:
scan left to right for a literal space followed by the triplet pattern and
return the first captured group. -/
def findMatch : List Char → Option (List Char)
  | [] => none
  | c :: cs =>
    if c = ' ' then
      match matchTripletAt cs with
      | some t => some t
      | none => findMatch cs
    else
      findMatch cs

/-- `parse_version` of `src/modules/r.rs`: search for the first match of
`R_VERSION_PATTERN`, take the `rversion` capture, prepend `"v"` and trim. -/
def parse_version (version : String) : Option String :=
  (findMatch version.data).map fun t => String.mk (rustTrim ('v' :: t))

example : parse_version "r_version=R version 3.6.3 (2020-02-29)" = some "v3.6.3" := by decide
example : parse_version "r_version=R version 3.6.5.2 (2020-02-29)" = none := by decide
example : parse_version " 1.2.3 and 4.5.6 " = some "v1.2.3" := by decide
example : parse_version " v3.6.3 " = none := by decide
example : parse_version " ٣.٦.٣ " = some "v٣.٦.٣" := by decide
example : parse_version " ٣.٦.٣ 1.2.3 " = some "v٣.٦.٣" := by decide

/-!
Spec-side definitions.  The spec (§4.3) describes the extractor as matching a
*whitespace*-delimited triplet; the following two definitions follow the spec's
words, to be compared with the space-delimited matcher embedded from the source.
-/

/-- Follows the spec's words (§4.3): `\d+\.\d+\.\d+` followed by a whitespace
character, at the head of `l`. -/
def matchTripletAtWs (l : List Char) : Option (List Char) :=
  let a := l.takeWhile isDigitChar
  if a = [] then none else
  match l.dropWhile isDigitChar with
  | '.' :: r2 =>
    let b := r2.takeWhile isDigitChar
    if b = [] then none else
    match r2.dropWhile isDigitChar with
    | '.' :: r4 =>
      let c := r4.takeWhile isDigitChar
      if c = [] then none else
      match r4.dropWhile isDigitChar with
      | d :: _ => if d.isWhitespace then some (a ++ '.' :: b ++ '.' :: c) else none
      | [] => none
    | _ => none
  | _ => none

/-- Follows the spec's words (§4.3): first numeric triplet surrounded by at
least one *whitespace* character on each side, in document order. -/
def findMatchWs : List Char → Option (List Char)
  | [] => none
  | c :: cs =>
    if c.isWhitespace then
      match matchTripletAtWs cs with
      | some t => some t
      | none => findMatchWs cs
    else
      findMatchWs cs

/-- The space-delimited triplet starting at position `i` of `s`, if any: a
positional restatement of one match of `R_VERSION_PATTERN`, used to state
"first occurrence in document order" independently of the scanning function. -/
def tripletFrom (s : List Char) (i : Nat) : Option (List Char) :=
  match s.drop i with
  | ' ' :: rest => matchTripletAt rest
  | _ => none

/-- A character of a dot-separated numeric run: a digit (`\p{Nd}`) or a dot. -/
def isDotDigit (c : Char) : Bool :=
  isDigitChar c || c = '.'

/-- Accumulator worker for `digitDotRuns`: `acc` holds the current run,
reversed. -/
def digitDotRunsAux : List Char → List Char → List (List Char)
  | [], acc => if acc = [] then [] else [acc.reverse]
  | c :: cs, acc =>
    if isDotDigit c then
      digitDotRunsAux cs (c :: acc)
    else if acc = [] then
      digitDotRunsAux cs []
    else
      acc.reverse :: digitDotRunsAux cs []

/-- The maximal runs of digit-or-dot characters of `s`, in order. -/
def digitDotRuns (s : List Char) : List (List Char) :=
  digitDotRunsAux s []

/-- The dot-separated components of a run. -/
def splitOnDots : List Char → List (List Char)
  | [] => [[]]
  | c :: cs =>
    if c = '.' then
      [] :: splitOnDots cs
    else
      match splitOnDots cs with
      | [] => [[c]]
      | g :: gs => (c :: g) :: gs

example : digitDotRuns "R version 3.6.5.2 (2020-02-29)".data =
    ["3.6.5.2".data, "2020".data, "02".data, "29".data] := by decide
example : splitOnDots "3.6.5.2".data = ["3".data, "6".data, "5".data, "2".data] := by decide
example : findMatchWs "a\t1.2.3\tb".data = some "1.2.3".data := by decide

/-!
Orchestration (`module` of `src/modules/r.rs`).  The collaborators it calls —
`Context::try_begin_scan`/`ScanDir`, `utils::exec_cmd`, `StringFormatter`,
`Module` and the `log` crate — are not under `src/`; they are modelled from the
spec (§4.1, §4.2, §4.4, §6) as an environment of functions.  `module` itself is
embedded faithfully from the source, instrumented with an effect trace so that
temporal claims (which collaborator was invoked, what was logged, what text was
fed to the extractor) are statable.
-/

/-- Modelled from the spec (§6): the captured streams of `utils::exec_cmd`,
`Optional<{stdout, stderr}>`. -/
structure CmdOutput where
  stdout : String
  stderr : String
deriving DecidableEq

/-- Modelled from the spec (§4.1, §6): the scan context returned by
`try_begin_scan`, reduced to its observable behaviour — for a configured
extension set, whether `set_extensions(exts).is_match()` holds. -/
structure ScanDir where
  extMatch : List String → Bool

/-- `RConfig` of `src/configs/r.rs`. -/
structure RConfig where
  format : String
  disabled : Bool
deriving DecidableEq

/-- `RConfig::new` of `src/configs/r.rs` (the `RootModuleConfig` default). -/
def RConfig.new : RConfig :=
  { format := "via [R $version](blue bold) ", disabled := false }

/-- Modelled from the spec (§4.4, §8 scenario D): one styled, renderable
fragment of a module's output, reduced to its text. -/
abbrev Segment := String

/-- The module descriptor produced on success (spec §6); the source's `Module`
with `get_prefix().set_value` / `get_suffix().set_value` modelled as the fields
`prefix_value` / `suffix_value` (`prefix` is a Lean keyword). -/
structure ModuleOutput where
  name : String
  prefix_value : String
  suffix_value : String
  segments : List Segment
deriving DecidableEq

/-- Modelled from the spec (§4.1, §4.2, §4.4, §6): the collaborators consumed
by `module`, as an environment.  `try_begin_scan` is `Context::try_begin_scan`;
`exec_cmd` is `utils::exec_cmd`; `compile` is `StringFormatter::new` on a format
string, returning on success a renderer that maps a variable-resolution
callback to the segment list (`formatter.map(...).parse(None)`); `config` is
the `RConfig` that `RConfig::try_load(module.config)` yields. -/
structure Env where
  try_begin_scan : Option ScanDir
  exec_cmd : String → List String → Option CmdOutput
  compile : String → Option ((String → Option String) → List Segment)
  config : RConfig

/-- One observable effect of a `module` run. -/
inductive Effect where
  | execCmd (program : String) (args : List String)
  | parseInput (text : String)
  | logDebug (msg : String)
  | logWarn (msg : String)
deriving DecidableEq

/-- Whether an effect is an external-command invocation. -/
def Effect.isExec : Effect → Bool
  | .execCmd _ _ => true
  | _ => false

/-- Whether an effect is a warning-level diagnostic. -/
def Effect.isWarn : Effect → Bool
  | .logWarn _ => true
  | _ => false

/-- Whether an effect records the text fed to `parse_version`. -/
def Effect.isParseInput : Effect → Bool
  | .parseInput _ => true
  | _ => false

/-- `module` of `src/modules/r.rs`, embedded with an effect trace (first
component: the returned `Option<Module>`; second: the effects in order).
`.parseInput` records the string handed to `parse_version` — the source line
`utils::exec_cmd("r", &["--version"])?.stderr`. -/
def moduleRun (env : Env) : Option ModuleOutput × List Effect :=
  match env.try_begin_scan with
  | none => (none, [])
  | some scan =>
    let is_r_project := scan.extMatch ["R"]
    if !is_r_project then
      (none, [.logDebug "r: Not a R project; getting out!"])
    else
      let e1 : List Effect := [.logDebug "r: This is a R project; getting in...",
        .execCmd "r" ["--version"]]
      match env.exec_cmd "r" ["--version"] with
      | none => (none, e1)
      | some out =>
        let r_version := out.stderr
        let e2 := e1 ++ [.logDebug ("r: r_version=" ++ r_version), .parseInput r_version]
        match parse_version r_version with
        | none => (none, e2)
        | some formatted_version =>
          let e3 := e2 ++ [.logDebug ("r: formatted_version=" ++ formatted_version)]
          match env.compile env.config.format with
          | none => (none, e3 ++ [.logWarn "Error parsing format string in `r.format`"])
          | some render =>
            let resolve := fun v =>
              if v = "version" then some formatted_version else none
            (some { name := "r", prefix_value := "", suffix_value := "",
                    segments := render resolve }, e3)

/-- The result component of a `module` run. -/
def module (env : Env) : Option ModuleOutput :=
  (moduleRun env).1

/-!
Helper lemmas.
-/

/-- The shape of a captured `rversion` group: three nonempty digit runs
separated by literal dots. -/
def TripletShape (t : List Char) : Prop :=
  ∃ a b c, a ≠ [] ∧ b ≠ [] ∧ c ≠ [] ∧
    a.all isDigitChar = true ∧ b.all isDigitChar = true ∧ c.all isDigitChar = true ∧
    t = a ++ '.' :: (b ++ '.' :: c)

theorem aux_digit_ne_space {c : Char} (h : isDigitChar c = true) : c ≠ ' ' := by
  intro e
  subst e
  exact absurd h (by decide)

theorem aux_digit_ne_dot {c : Char} (h : isDigitChar c = true) : c ≠ '.' := by
  intro e
  subst e
  exact absurd h (by decide)

theorem aux_digit_not_ws {c : Char} (h : isDigitChar c = true) : c.isWhitespace = false := by
  have h0 : c ≠ ' ' := aux_digit_ne_space h
  have h1 : c ≠ '\t' := by intro e; subst e; exact absurd h (by decide)
  have h2 : c ≠ '\r' := by intro e; subst e; exact absurd h (by decide)
  have h3 : c ≠ '\n' := by intro e; subst e; exact absurd h (by decide)
  simp [Char.isWhitespace, h0, h1, h2, h3]

theorem aux_all_takeWhile (p : Char → Bool) (l : List Char) :
    (l.takeWhile p).all p = true := by
  induction l with
  | nil => rfl
  | cons c cs ih =>
    by_cases h : p c
    · simp [List.takeWhile_cons, h, ih]
    · simp [List.takeWhile_cons, h]

theorem matchTripletAt_some {l t : List Char} (h : matchTripletAt l = some t) :
    ∃ w, TripletShape t ∧ l = t ++ ' ' :: w := by
  simp only [matchTripletAt] at h
  split at h
  · exact absurd h (by simp)
  next ha =>
  split at h
  next r2 heq1 =>
    split at h
    · exact absurd h (by simp)
    next hb =>
    split at h
    next r4 heq2 =>
      split at h
      · exact absurd h (by simp)
      next hc =>
      split at h
      next w heq3 =>
        refine ⟨w, ⟨l.takeWhile isDigitChar, r2.takeWhile isDigitChar,
          r4.takeWhile isDigitChar, ha, hb, hc,
          aux_all_takeWhile _ _, aux_all_takeWhile _ _, aux_all_takeWhile _ _, ?_⟩, ?_⟩
        · have ht := Option.some.inj h
          simp [← ht]
        · have ht := Option.some.inj h
          have e1 : l.takeWhile isDigitChar ++ l.dropWhile isDigitChar = l :=
            List.takeWhile_append_dropWhile isDigitChar l
          have e2 : r2.takeWhile isDigitChar ++ r2.dropWhile isDigitChar = r2 :=
            List.takeWhile_append_dropWhile isDigitChar r2
          have e3 : r4.takeWhile isDigitChar ++ r4.dropWhile isDigitChar = r4 :=
            List.takeWhile_append_dropWhile isDigitChar r4
          rw [← e1, heq1, ← e2, heq2, ← e3, heq3, ← ht]
          simp
      next hne => exact absurd h (by simp)
    next hne => exact absurd h (by simp)
  next hne => exact absurd h (by simp)

theorem findMatch_some {s t : List Char} (h : findMatch s = some t) :
    ∃ u w, TripletShape t ∧ s = u ++ ' ' :: (t ++ ' ' :: w) := by
  induction s with
  | nil => simp [findMatch] at h
  | cons c cs ih =>
    by_cases hc : c = ' '
    · subst hc
      rw [findMatch, if_pos rfl] at h
      cases hm : matchTripletAt cs with
      | some u =>
        rw [hm] at h
        obtain ⟨w, hshape, hcs⟩ := matchTripletAt_some hm
        obtain rfl : u = t := Option.some.inj h
        exact ⟨[], w, hshape, by rw [hcs]; rfl⟩
      | none =>
        rw [hm] at h
        obtain ⟨u, w, hshape, hcs⟩ := ih h
        exact ⟨' ' :: u, w, hshape, by rw [hcs]; rfl⟩
    · rw [findMatch, if_neg hc] at h
      obtain ⟨u, w, hshape, hcs⟩ := ih h
      exact ⟨c :: u, w, hshape, by rw [hcs]; rfl⟩

theorem aux_getLast_digit {c : List Char} (hne : c ≠ []) (hall : c.all isDigitChar = true) :
    ∃ d ds, c.reverse = d :: ds ∧ isDigitChar d = true := by
  rcases hrev : c.reverse with _ | ⟨d, ds⟩
  · exact absurd (by simpa using congrArg List.reverse hrev) hne
  · refine ⟨d, ds, rfl, ?_⟩
    have hmem : d ∈ c := by
      rw [← List.mem_reverse, hrev]
      exact List.mem_cons_self d ds
    exact List.all_eq_true.mp hall d hmem

theorem rustTrim_vcons {t : List Char} (ht : TripletShape t) : rustTrim ('v' :: t) = 'v' :: t := by
  obtain ⟨a, b, c, ha, hb, hc, haall, hball, hcall, hteq⟩ := ht
  obtain ⟨d, ds, hrev, hd⟩ := aux_getLast_digit hc hcall
  have h1 : ('v' :: t).dropWhile Char.isWhitespace = 'v' :: t :=
    List.dropWhile_cons_of_neg (by decide)
  have hteq' : 'v' :: t = ('v' :: a ++ '.' :: b ++ ['.']) ++ c := by
    rw [hteq]
    simp
  have h2 : ('v' :: t).reverse = d :: (ds ++ ('v' :: a ++ '.' :: b ++ ['.']).reverse) := by
    rw [hteq', List.reverse_append, hrev]
    rfl
  have h3 : (('v' :: t).reverse).dropWhile Char.isWhitespace = ('v' :: t).reverse := by
    rw [h2]
    exact List.dropWhile_cons_of_neg (by simp [aux_digit_not_ws hd])
  rw [rustTrim, h1, h3, List.reverse_reverse]

theorem aux_triplet_no_ws {t : List Char} (ht : TripletShape t) :
    ('v' :: t).all (fun ch => !ch.isWhitespace) = true := by
  obtain ⟨a, b, c, ha, hb, hc, haall, hball, hcall, hteq⟩ := ht
  subst hteq
  rw [List.all_eq_true] at haall hball hcall
  rw [List.all_eq_true]
  intro x hx
  simp only [List.mem_cons, List.mem_append] at hx
  rcases hx with rfl | hx
  · decide
  rcases hx with hxa | hx
  · simp [aux_digit_not_ws (haall x hxa)]
  rcases hx with rfl | hx
  · decide
  rcases hx with hxb | hx
  · simp [aux_digit_not_ws (hball x hxb)]
  rcases hx with rfl | hxc
  · decide
  · simp [aux_digit_not_ws (hcall x hxc)]

theorem tripletFrom_cons_succ (c : Char) (cs : List Char) (j : Nat) :
    tripletFrom (c :: cs) (j + 1) = tripletFrom cs j := by
  simp [tripletFrom, List.drop_succ_cons]

theorem tripletFrom_zero_cons (c : Char) (cs : List Char) :
    tripletFrom (c :: cs) 0 = if c = ' ' then matchTripletAt cs else none := by
  by_cases hc : c = ' '
  · subst hc
    simp [tripletFrom]
  · simp only [tripletFrom, List.drop_zero]
    rw [if_neg hc]
    split
    next heq => exact absurd (List.cons.inj heq).1 hc
    next => rfl

theorem findMatch_of_first {s : List Char} {i : Nat} {t : List Char}
    (h1 : tripletFrom s i = some t) (h2 : ∀ j, j < i → tripletFrom s j = none) :
    findMatch s = some t := by
  induction s generalizing i with
  | nil =>
    rw [show tripletFrom [] i = none by simp [tripletFrom]] at h1
    exact absurd h1 (by simp)
  | cons c cs ih =>
    cases i with
    | zero =>
      rw [tripletFrom_zero_cons] at h1
      by_cases hc : c = ' '
      · rw [if_pos hc] at h1
        subst hc
        rw [findMatch, if_pos rfl, h1]
      · rw [if_neg hc] at h1
        exact absurd h1 (by simp)
    | succ k =>
      have h0 := h2 0 (Nat.succ_pos k)
      rw [tripletFrom_zero_cons] at h0
      have hrec : findMatch (c :: cs) = findMatch cs := by
        by_cases hc : c = ' '
        · rw [if_pos hc] at h0
          rw [findMatch, if_pos hc, h0]
        · rw [findMatch, if_neg hc]
      rw [hrec]
      rw [tripletFrom_cons_succ] at h1
      refine ih h1 ?_
      intro j hj
      have := h2 (j + 1) (Nat.succ_lt_succ hj)
      rwa [tripletFrom_cons_succ] at this

theorem tripletFrom_some_shape {s : List Char} {i : Nat} {t : List Char}
    (h : tripletFrom s i = some t) : TripletShape t := by
  simp only [tripletFrom] at h
  split at h
  · obtain ⟨_, hshape, _⟩ := matchTripletAt_some h
    exact hshape
  · exact absurd h (by simp)

theorem digitDotRunsAux_append {d : Char} (hd : isDotDigit d = false) (a : List Char) :
    ∀ (acc b : List Char),
      digitDotRunsAux (a ++ d :: b) acc = digitDotRunsAux a acc ++ digitDotRunsAux b [] := by
  induction a with
  | nil =>
    intro acc b
    by_cases hacc : acc = []
    · simp [digitDotRunsAux, hd, hacc]
    · simp [digitDotRunsAux, hd, hacc]
  | cons c cs ih =>
    intro acc b
    by_cases hc : isDotDigit c
    · simp [digitDotRunsAux, hc, ih]
    · by_cases hacc : acc = []
      · simp [digitDotRunsAux, hc, hacc, ih]
      · simp [digitDotRunsAux, hc, hacc, ih]

theorem digitDotRunsAux_all_run {l : List Char} (hall : l.all isDotDigit = true) :
    ∀ acc : List Char,
      digitDotRunsAux l acc = if acc.reverse ++ l = [] then [] else [acc.reverse ++ l] := by
  induction l with
  | nil =>
    intro acc
    by_cases hacc : acc = []
    · simp [digitDotRunsAux, hacc]
    · have : acc.reverse ≠ [] := by simpa using hacc
      simp [digitDotRunsAux, hacc, this]
  | cons c cs ih =>
    intro acc
    rw [List.all_cons] at hall
    obtain ⟨hc, hcs⟩ := Bool.and_eq_true_iff.mp hall
    rw [show digitDotRunsAux (c :: cs) acc = digitDotRunsAux cs (c :: acc) by
      simp [digitDotRunsAux, hc]]
    rw [ih hcs (c :: acc)]
    have hne : acc.reverse ++ c :: cs ≠ [] := by simp
    rw [if_neg (by simp), if_neg hne]
    simp

theorem aux_run_mem_digitDotRuns {u t w : List Char} (htne : t ≠ [])
    (hall : t.all isDotDigit = true) :
    t ∈ digitDotRuns (u ++ ' ' :: (t ++ ' ' :: w)) := by
  have hsp : isDotDigit ' ' = false := by decide
  rw [digitDotRuns, digitDotRunsAux_append hsp u, digitDotRunsAux_append hsp t]
  rw [digitDotRunsAux_all_run hall []]
  have : t ∈ digitDotRuns t := by
    rw [digitDotRuns, digitDotRunsAux_all_run hall []]
    simp [htne]
  simp [htne]

theorem splitOnDots_append_dot {a : List Char} (ha : ∀ x ∈ a, x ≠ '.') (r : List Char) :
    splitOnDots (a ++ '.' :: r) = a :: splitOnDots r := by
  induction a with
  | nil => simp [splitOnDots]
  | cons c cs ih =>
    have hc : c ≠ '.' := ha c (List.mem_cons_self c cs)
    have ih' := ih (fun x hx => ha x (List.mem_cons_of_mem c hx))
    rw [List.cons_append, splitOnDots, if_neg hc, ih']

theorem splitOnDots_no_dot {l : List Char} (hl : ∀ x ∈ l, x ≠ '.') :
    splitOnDots l = [l] := by
  induction l with
  | nil => rfl
  | cons c cs ih =>
    have hc : c ≠ '.' := hl c (List.mem_cons_self c cs)
    have ih' := ih (fun x hx => hl x (List.mem_cons_of_mem c hx))
    rw [splitOnDots, if_neg hc, ih']

theorem aux_triplet_components {t : List Char} (ht : TripletShape t) :
    (splitOnDots t).length = 3 := by
  obtain ⟨a, b, c, ha, hb, hc, haall, hball, hcall, hteq⟩ := ht
  rw [List.all_eq_true] at haall hball hcall
  have hand : ∀ x ∈ a, x ≠ '.' := fun x hx => aux_digit_ne_dot (haall x hx)
  have hbnd : ∀ x ∈ b, x ≠ '.' := fun x hx => aux_digit_ne_dot (hball x hx)
  have hcnd : ∀ x ∈ c, x ≠ '.' := fun x hx => aux_digit_ne_dot (hcall x hx)
  rw [hteq, splitOnDots_append_dot hand, splitOnDots_append_dot hbnd, splitOnDots_no_dot hcnd]
  rfl

theorem aux_triplet_all_dotdigit {t : List Char} (ht : TripletShape t) :
    t ≠ [] ∧ t.all isDotDigit = true := by
  obtain ⟨a, b, c, ha, hb, hc, haall, hball, hcall, hteq⟩ := ht
  rw [List.all_eq_true] at haall hball hcall
  constructor
  · rw [hteq]
    simp
  · rw [hteq, List.all_eq_true]
    intro x hx
    simp only [List.mem_append, List.mem_cons] at hx
    have hdig : ∀ y : Char, isDigitChar y = true → isDotDigit y = true := by
      intro y hy
      simp [isDotDigit, isDigitChar] at hy ⊢
      exact Or.inl hy
    rcases hx with hxa | hx
    · exact hdig x (haall x hxa)
    rcases hx with rfl | hx
    · decide
    rcases hx with hxb | hx
    · exact hdig x (hball x hxb)
    rcases hx with rfl | hxc
    · decide
    · exact hdig x (hcall x hxc)

theorem aux_string_data_append (x y : String) : (x ++ y).data = x.data ++ y.data := rfl

theorem aux_dotdigit_ne_space {ch : Char} (h : isDotDigit ch = true) : ch ≠ ' ' := by
  simp only [isDotDigit, Bool.or_eq_true, decide_eq_true_eq] at h
  rcases h with h | rfl
  · exact aux_digit_ne_space (by simpa [isDigitChar] using h)
  · decide

theorem aux_findMatch_no_space {l : List Char} (h : ∀ ch ∈ l, ch ≠ ' ') :
    findMatch (l ++ [' ']) = none := by
  induction l with
  | nil => decide
  | cons c cs ih =>
    have hc : c ≠ ' ' := h c (List.mem_cons_self c cs)
    rw [List.cons_append, findMatch, if_neg hc]
    exact ih (fun x hx => h x (List.mem_cons_of_mem c hx))

theorem aux_parse_version_structure {s r : String} (h : parse_version s = some r) :
    ∃ t, TripletShape t ∧ findMatch s.data = some t ∧ r = String.mk ('v' :: t) := by
  simp only [parse_version, Option.map_eq_some'] at h
  obtain ⟨t, hfind, hr⟩ := h
  obtain ⟨u, w, hshape, _⟩ := findMatch_some hfind
  exact ⟨t, hshape, hfind, by rw [← hr, rustTrim_vcons hshape]⟩

/-!
Claim theorems for the version extractor.
-/

/-- C1 counterexample: the text `"a\t3.6.3\tb"` contains a whitespace-delimited
numeric triplet — `findMatchWs`, which follows the spec's words, extracts
`3.6.3` as the first such occurrence — yet `parse_version` returns absence
rather than `"v3.6.3"`, because `R_VERSION_PATTERN` demands a literal ASCII
space on each side of the triplet. -/
theorem claim_C1_counterexample :
    findMatchWs "a\t3.6.3\tb".data = some "3.6.3".data ∧
    parse_version "a\t3.6.3\tb" = none := by
  constructor
  · decide
  · decide

/-- C1 (amended: *space*-delimited, not whitespace-delimited): for every input
text whose first triplet `d+.d+.d+` delimited by literal ASCII spaces occurs at
position `i` (no such triplet starts earlier), `parse_version` returns `"v"`
followed by that triplet verbatim; later matches are ignored. -/
theorem claim_C1_theorem (s : String) (i : Nat) (t : List Char)
    (h1 : tripletFrom s.data i = some t)
    (h2 : ∀ j, j < i → tripletFrom s.data j = none) :
    parse_version s = some (String.mk ('v' :: t)) := by
  have hfind := findMatch_of_first h1 h2
  have hshape := tripletFrom_some_shape h1
  simp only [parse_version, hfind, Option.map_some']
  rw [rustTrim_vcons hshape]

/-- Witness for C1: on `" 3.6.3 "` the first space-delimited triplet starts at
position 0 and the extractor returns `v3.6.3`. -/
theorem claim_C1_witness :
    parse_version " 3.6.3 " = some (String.mk ('v' :: "3.6.3".data)) :=
  claim_C1_theorem " 3.6.3 " 0 "3.6.3".data (by decide)
    (fun j hj => absurd hj (Nat.not_lt_zero j))

/-- C2: if every maximal digit-or-dot run of the input has other than exactly
three dot-separated components, `parse_version` returns absence (never a
partial or truncated version). -/
theorem claim_C2_theorem (s : String)
    (h : ∀ r ∈ digitDotRuns s.data, (splitOnDots r).length ≠ 3) :
    parse_version s = none := by
  cases hp : parse_version s with
  | none => rfl
  | some r =>
    exfalso
    obtain ⟨t, hshape, hfind, _⟩ := aux_parse_version_structure hp
    obtain ⟨u, w, _, hdecomp⟩ := findMatch_some hfind
    obtain ⟨htne, hall⟩ := aux_triplet_all_dotdigit hshape
    have hmem : t ∈ digitDotRuns s.data := by
      rw [hdecomp]
      exact aux_run_mem_digitDotRuns htne hall
    exact h t hmem (aux_triplet_components hshape)

/-- Witness for C2: the scenario-B text, whose only runs are `3.6.5.2` (four
components) and the date parts (one component each), yields absence. -/
theorem claim_C2_witness :
    (∀ r ∈ digitDotRuns "R version 3.6.5.2 (2020-02-29)".data,
      (splitOnDots r).length ≠ 3) ∧
    parse_version "R version 3.6.5.2 (2020-02-29)" = none :=
  ⟨by decide, claim_C2_theorem "R version 3.6.5.2 (2020-02-29)" (by decide)⟩

/-- C3 counterexample: on `" 3.6.3 "` the extractor returns `"v3.6.3"`, but
re-running it on `" " ++ "v3.6.3" ++ " "` returns absence, not the same
result: the prepended `v` keeps the digit-initial pattern from matching. -/
theorem claim_C3_counterexample :
    parse_version " 3.6.3 " = some "v3.6.3" ∧
    parse_version (" " ++ "v3.6.3" ++ " ") = none := by
  constructor
  · decide
  · decide

/-- C3 (amended): `parse_version` is *not* idempotent on its own output shape —
whenever it returns some `r`, re-running it on `" " ++ r ++ " "` returns
absence, because every result starts with `v` and the pattern requires a digit
right after a space. -/
theorem claim_C3_theorem (s r : String) (h : parse_version s = some r) :
    parse_version (" " ++ r ++ " ") = none := by
  obtain ⟨t, hshape, _, hr⟩ := aux_parse_version_structure h
  obtain ⟨_, hall⟩ := aux_triplet_all_dotdigit hshape
  have hdata : (" " ++ r ++ " ").data = ' ' :: 'v' :: (t ++ [' ']) := by
    rw [aux_string_data_append, aux_string_data_append, hr]
    rfl
  have h1 : matchTripletAt ('v' :: (t ++ [' '])) = none := by
    simp [matchTripletAt, List.takeWhile_cons]
    intro hfalse
    exact absurd hfalse (by decide)
  have h2 : findMatch (' ' :: 'v' :: (t ++ [' '])) = none := by
    rw [findMatch, if_pos rfl, h1, findMatch, if_neg (by decide)]
    exact aux_findMatch_no_space
      (fun ch hch => aux_dotdigit_ne_space (List.all_eq_true.mp hall ch hch))
  rw [parse_version, hdata, h2]
  rfl

/-- Witness for C3: re-running on `" v3.6.3 "` yields absence. -/
theorem claim_C3_witness :
    parse_version (" " ++ "v3.6.3" ++ " ") = none :=
  claim_C3_theorem " 3.6.3 " "v3.6.3" (by decide)

/-- C9: every value returned by `parse_version` is exactly the character `v`
immediately followed by three dot-separated nonempty digit runs, contains no
whitespace, and the final trim is a no-op on it. -/
theorem claim_C9_theorem (s r : String) (h : parse_version s = some r) :
    (∃ a b c, a ≠ [] ∧ b ≠ [] ∧ c ≠ [] ∧
      a.all isDigitChar = true ∧ b.all isDigitChar = true ∧ c.all isDigitChar = true ∧
      r.data = 'v' :: (a ++ '.' :: (b ++ '.' :: c))) ∧
    r.data.all (fun ch => !ch.isWhitespace) = true ∧
    rustTrim r.data = r.data := by
  obtain ⟨t, hshape, hfind, hr⟩ := aux_parse_version_structure h
  have hdata : r.data = 'v' :: t := by rw [hr]
  refine ⟨?_, ?_, ?_⟩
  · obtain ⟨a, b, c, ha, hb, hc, h1, h2, h3, hteq⟩ := hshape
    exact ⟨a, b, c, ha, hb, hc, h1, h2, h3, by rw [hdata, hteq]⟩
  · rw [hdata]
    exact aux_triplet_no_ws hshape
  · rw [hdata]
    exact rustTrim_vcons hshape

/-- Witness for C9: the result `"v3.6.3"` of parsing `" 3.6.3 "`. -/
theorem claim_C9_witness :
    (∃ a b c, a ≠ [] ∧ b ≠ [] ∧ c ≠ [] ∧
      a.all isDigitChar = true ∧ b.all isDigitChar = true ∧ c.all isDigitChar = true ∧
      ("v3.6.3" : String).data = 'v' :: (a ++ '.' :: (b ++ '.' :: c))) ∧
    ("v3.6.3" : String).data.all (fun ch => !ch.isWhitespace) = true ∧
    rustTrim ("v3.6.3" : String).data = ("v3.6.3" : String).data :=
  claim_C9_theorem " 3.6.3 " "v3.6.3" (by decide)

/-- C10: `parse_version` only matches a triplet delimited by literal ASCII
space characters on both sides — every successful parse decomposes the input
around such spaces — and on `"x\t1.2.3\ty"`, where the sole numeric triplet is
tab-delimited (the spec-side `findMatchWs` finds it) and no space-delimited
triplet occurs, it returns absence. -/
theorem claim_C10_theorem :
    (∀ s r, parse_version s = some r →
      ∃ u t w, TripletShape t ∧ s.data = u ++ ' ' :: (t ++ ' ' :: w) ∧
        r = String.mk ('v' :: t)) ∧
    (findMatchWs "x\t1.2.3\ty".data = some "1.2.3".data ∧
      parse_version "x\t1.2.3\ty" = none) := by
  refine ⟨?_, by decide, by decide⟩
  intro s r h
  obtain ⟨t, hshape, hfind, hr⟩ := aux_parse_version_structure h
  obtain ⟨u, w, _, hdecomp⟩ := findMatch_some hfind
  exact ⟨u, t, w, hshape, hdecomp, hr⟩

/-- Witness for C10: the decomposition of `" 1.2.3 "` around its result. -/
theorem claim_C10_witness :
    ∃ u t w, TripletShape t ∧ (" 1.2.3 " : String).data = u ++ ' ' :: (t ++ ' ' :: w) ∧
      ("v1.2.3" : String) = String.mk ('v' :: t) :=
  claim_C10_theorem.1 " 1.2.3 " "v1.2.3" (by decide)

/-!
Claim theorems for the orchestration.
-/

/-- C4: when the scan context reports no match for the configured extension
set, `module` returns absence immediately and the trace contains no external
command invocation. -/
theorem claim_C4_theorem (env : Env) (scan : ScanDir)
    (h1 : env.try_begin_scan = some scan)
    (h2 : scan.extMatch ["R"] = false) :
    module env = none ∧ (moduleRun env).2.all (fun e => !e.isExec) = true := by
  simp [module, moduleRun, h1, h2, Effect.isExec]

/-- C5: when the command runner returns absence (binary missing or
unspawnable), `module` returns absence; no error is surfaced to the caller. -/
theorem claim_C5_theorem (env : Env) (scan : ScanDir)
    (h1 : env.try_begin_scan = some scan)
    (h2 : scan.extMatch ["R"] = true)
    (h3 : env.exec_cmd "r" ["--version"] = none) :
    module env = none := by
  simp [module, moduleRun, h1, h2, h3]

/-- C6: when compiling the configured format template fails, `module` returns
absence and the trace contains exactly one warning-level diagnostic. -/
theorem claim_C6_theorem (env : Env) (scan : ScanDir) (out : CmdOutput) (v : String)
    (h1 : env.try_begin_scan = some scan)
    (h2 : scan.extMatch ["R"] = true)
    (h3 : env.exec_cmd "r" ["--version"] = some out)
    (h4 : parse_version out.stderr = some v)
    (h5 : env.compile env.config.format = none) :
    module env = none ∧ ((moduleRun env).2.filter Effect.isWarn).length = 1 := by
  simp [module, moduleRun, h1, h2, h3, h4, h5, Effect.isWarn]

/-- C7: whenever `module` returns a module, the returned module's prefix and
suffix values are both the empty string. -/
theorem claim_C7_theorem (env : Env) (m : ModuleOutput) (h : module env = some m) :
    m.prefix_value = "" ∧ m.suffix_value = "" := by
  rcases henv : env.try_begin_scan with _ | scan <;> simp [module, moduleRun, henv] at h
  rcases hm : scan.extMatch ["R"] <;> simp [hm] at h
  rcases hexec : env.exec_cmd "r" ["--version"] with _ | out <;> simp [hexec] at h
  rcases hparse : parse_version out.stderr with _ | v <;> simp [hparse] at h
  rcases hcomp : env.compile env.config.format with _ | render <;> simp [hcomp] at h
  rw [← h]
  exact ⟨rfl, rfl⟩

/-- C8: whenever detection passes and the external invocation — of program
`"r"` with the single argument `"--version"` — succeeds, the text fed to
`parse_version` is exactly the stderr stream of that invocation (and it is the
only external invocation of the run). -/
theorem claim_C8_theorem (env : Env) (scan : ScanDir) (out : CmdOutput)
    (h1 : env.try_begin_scan = some scan)
    (h2 : scan.extMatch ["R"] = true)
    (h3 : env.exec_cmd "r" ["--version"] = some out) :
    (moduleRun env).2.filter Effect.isExec = [Effect.execCmd "r" ["--version"]] ∧
    (moduleRun env).2.filter Effect.isParseInput = [Effect.parseInput out.stderr] := by
  rcases hparse : parse_version out.stderr with _ | v
  · simp [moduleRun, h1, h2, h3, hparse, Effect.isExec, Effect.isParseInput]
  · rcases hcomp : env.compile env.config.format with _ | render <;>
      simp [moduleRun, h1, h2, h3, hparse, hcomp, Effect.isExec, Effect.isParseInput]

/-- A scan context whose extension check never matches. -/
def scanNo : ScanDir := ⟨fun _ => false⟩

/-- A scan context whose extension check always matches. -/
def scanYes : ScanDir := ⟨fun _ => true⟩

/-- Concrete command output carrying the R banner on stderr. -/
def outR : CmdOutput := ⟨"", "R version 3.6.3 (2020-02-29)"⟩

/-- Environment for the no-match scenario. -/
def envNoProject : Env :=
  { try_begin_scan := some scanNo, exec_cmd := fun _ _ => none,
    compile := fun _ => none, config := RConfig.new }

/-- Environment where the scan matches but the binary is missing. -/
def envNoCmd : Env :=
  { try_begin_scan := some scanYes, exec_cmd := fun _ _ => none,
    compile := fun _ => none, config := RConfig.new }

/-- Environment where everything succeeds up to a malformed template. -/
def envBadFormat : Env :=
  { try_begin_scan := some scanYes, exec_cmd := fun _ _ => some outR,
    compile := fun _ => none, config := RConfig.new }

/-- Environment for the fully successful pipeline: the compiled template
renders the single segment `resolve "version"`. -/
def envGood : Env :=
  { try_begin_scan := some scanYes, exec_cmd := fun _ _ => some outR,
    compile := fun _ => some (fun resolve => [(resolve "version").getD ""]),
    config := RConfig.new }

/-- The module produced by `envGood`. -/
def outGood : ModuleOutput :=
  { name := "r", prefix_value := "", suffix_value := "", segments := ["v3.6.3"] }

/-- Witness for C4: a no-match environment short-circuits without spawning. -/
theorem claim_C4_witness :
    module envNoProject = none ∧
    (moduleRun envNoProject).2.all (fun e => !e.isExec) = true :=
  claim_C4_theorem envNoProject scanNo rfl rfl

/-- Witness for C5: a missing binary yields absence. -/
theorem claim_C5_witness : module envNoCmd = none :=
  claim_C5_theorem envNoCmd scanYes rfl rfl rfl

/-- Witness for C6: a malformed template yields absence and one warning. -/
theorem claim_C6_witness :
    module envBadFormat = none ∧
    ((moduleRun envBadFormat).2.filter Effect.isWarn).length = 1 :=
  claim_C6_theorem envBadFormat scanYes outR "v3.6.3" rfl rfl rfl (by decide) rfl

/-- Witness for C7: the successful run's module has empty prefix and suffix. -/
theorem claim_C7_witness :
    module envGood = some outGood ∧
    outGood.prefix_value = "" ∧ outGood.suffix_value = "" := by
  have hm : module envGood = some outGood := by decide
  exact ⟨hm, claim_C7_theorem envGood outGood hm⟩

/-- Witness for C8: the successful run's trace has one exec invocation and
feeds the extractor the stderr text. -/
theorem claim_C8_witness :
    (moduleRun envGood).2.filter Effect.isExec = [Effect.execCmd "r" ["--version"]] ∧
    (moduleRun envGood).2.filter Effect.isParseInput = [Effect.parseInput outR.stderr] :=
  claim_C8_theorem envGood scanYes outR rfl rfl rfl
